import Mathlib

/-!
Shallow embedding of `signature.cpp` (simonenkos/signature): a concurrent
per-block checksum pipeline.  The program splits an input stream into
fixed-size blocks, computes a 32-bit checksum of each block on a thread
pool, collects the results in a `std::map<uint64_t, uint32_t>` keyed by
block sequence number, and a flusher (`crc_saver`) writes the contiguous
run of checksums starting at `last_processed_block_id` to the output
stream.

The embedding models:
  * the `block_size` option class (`set` / `get`), with uint64 arithmetic
    as `Nat` reduced `% 2 ^ 64` and the division in the overflow check made
    explicitly fallible (C++ division by zero is undefined behaviour,
    rendered here as `Option.none`);
  * `std::map<uint64_t, uint32_t>` as an association list with
    `std::map::find` / `std::map::insert` semantics;
  * the `crc_saver` lambda as a function of the map and cursor returning
    the (unchanged) map, the advanced cursor, and the written values;
  * the read loop (`while (!input_file.eof())`), including the iostream
    semantics that a read consuming the stream exactly does not set the
    eof bit, so an extra zero-length block is dispatched when the input
    size is a multiple of the block size;
  * the checksum task (`process_bytes(data, readed_size)` over an abstract
    checksum function);
  * whole-pipeline runs as traces of lock-protected atomic events
    (task-completion inserts and flusher invocations), so that ordering
    properties can be proved for every completion schedule;
  * the `bad_alloc` retry loop of the later revision of `main`, and the
    pre-pipeline control flow of `main` (help / same-file checks).
-/

namespace Signature

/-! ## Constants from the anonymous namespace -/

def BLOCK_SIZE_KILOBYTE : Nat := 1024
def BLOCK_SIZE_MEGABYTE : Nat := 1024 * BLOCK_SIZE_KILOBYTE
def BLOCK_SIZE_GIGABYTE : Nat := 1024 * BLOCK_SIZE_MEGABYTE
def BLOCK_CRC_MAP_PROCESSING_SIZE : Nat := 100

def UINT64_MAX : Nat := 2 ^ 64 - 1

/-! ## The `block_size` class

`number_` and `suffix_` are the two `uint64_t` fields.  `set` takes the
numeric part and the suffix character (0 meaning "no suffix"; characters
are represented by their codes: `K` = 75, `M` = 77, `G` = 71).  The C++
overflow check evaluates `UINT64_MAX / number`, which is undefined
behaviour when `number = 0`; the embedding returns `none` exactly when the
C++ code would perform that division by zero, and otherwise
`some (result, object after the call)`. -/

structure BlockSize where
  number : Nat
  suffix : Nat
deriving DecidableEq, Repr

def suffixK : Nat := 75
def suffixM : Nat := 77
def suffixG : Nat := 71

/-- The multiplier `tmp` selected by the `switch` over the suffix
character (1 when no suffix was provided). -/
def suffixMultiplier (suffix : Nat) : Nat :=
  if suffix = suffixK then BLOCK_SIZE_KILOBYTE
  else if suffix = suffixM then BLOCK_SIZE_MEGABYTE
  else if suffix = suffixG then BLOCK_SIZE_GIGABYTE
  else 1

/-- Model of `block_size::set(uint64_t number, char suffix)`.  The switch
over the suffix yields the multiplier `tmp` (or returns `false` for an
unknown suffix); then the two overflow checks divide `UINT64_MAX` by `tmp`
and by `number`; then `bs = number * tmp` (uint64 multiplication) is
required to be at least `BLOCK_SIZE_KILOBYTE`; on success the fields are
updated. -/
def BlockSize.set (s : BlockSize) (number : Nat) (suffix : Nat) :
    Option (Bool × BlockSize) :=
  -- the default of the switch: an unknown suffix character returns false
  if suffix ≠ 0 ∧ suffix ≠ suffixK ∧ suffix ≠ suffixM ∧ suffix ≠ suffixG then
    some (false, s)
  -- first overflow check: `UINT64_MAX / tmp < number`; `tmp` is never zero
  else if suffixMultiplier suffix = 0 then none
  else if UINT64_MAX / suffixMultiplier suffix < number then some (false, s)
  -- second overflow check divides by `number`: division by zero (undefined
  -- behaviour) when `number = 0`
  else if number = 0 then none
  else if UINT64_MAX / number < suffixMultiplier suffix then some (false, s)
  -- `bs = number * tmp` as uint64, required to be at least one kilobyte
  else if number * suffixMultiplier suffix % 2 ^ 64 < BLOCK_SIZE_KILOBYTE then
    some (false, s)
  else some (true, { number := number, suffix := suffixMultiplier suffix })

/-- Model of `block_size::get()`: `number_ * suffix_` as uint64. -/
def BlockSize.get (s : BlockSize) : Nat :=
  s.number * s.suffix % 2 ^ 64

/-! ## The result store: `std::map<uint64_t, uint32_t>`

Modelled as an association list whose keys are kept unique by the insert
operation (mirroring `std::map`). -/

/-- Model of `std::map::find`: the value stored under `k`, if present. -/
def mapFind (m : List (Nat × Nat)) (k : Nat) : Option Nat :=
  match m with
  | [] => none
  | (a, b) :: rest => if a = k then some b else mapFind rest k

/-- Model of `std::map::insert({k, v})`: no overwrite of an existing key;
the `Bool` is the `.second` of the returned pair (`true` iff the insertion
took place). -/
def mapInsert (m : List (Nat × Nat)) (k v : Nat) : List (Nat × Nat) × Bool :=
  match mapFind m k with
  | some _ => (m, false)
  | none => (m ++ [(k, v)], true)

/-! ## The `crc_saver` lambda

```
auto crc_saver = [...]() {
   while (true) {
      auto block = block_crc_map.find(last_processed_block_id);
      if (block_crc_map.end() != block) {
         output_file_stream.write(..&block->second.., 4);
         last_processed_block_id++;
      }
      else break;
   }
};
```

The loop is written with fuel; `m.length + 1` fuel always suffices because
each successful `find` hits a distinct key of the map (the cursor strictly
increases).  Note the lambda only ever calls `find` on the map: it never
erases the records it writes. -/

/-- The `while (true)` loop of `crc_saver`, returning the final cursor and
the sequence of checksum values written to the output stream. -/
def crcSaverLoop : Nat → List (Nat × Nat) → Nat → Nat × List Nat
  | 0, _, cursor => (cursor, [])
  | fuel + 1, m, cursor =>
    match mapFind m cursor with
    | some v =>
      let r := crcSaverLoop fuel m (cursor + 1)
      (r.1, v :: r.2)
    | none => (cursor, [])

/-- Model of one invocation of the `crc_saver` lambda: given the map and
`last_processed_block_id`, return the map after the call (unchanged — the
lambda only calls `find`), the new cursor, and the written values. -/
def crc_saver (m : List (Nat × Nat)) (cursor : Nat) :
    List (Nat × Nat) × Nat × List Nat :=
  (m, crcSaverLoop (m.length + 1) m cursor)

/-- Number of distinct keys of the map that are at least `c`; the
termination measure showing the `crc_saver` fuel is sufficient. -/
def keyCount (m : List (Nat × Nat)) (c : Nat) : Nat :=
  ((m.map Prod.fst).dedup.filter (fun k => c ≤ k)).length

/-! ## The read loop

```
while (!input_file.eof()) {
   buffer_ptr = make_shared<vector<char>>(block_size_value.get(), 0);
   input_file.read(buffer_ptr->data(), buffer_ptr->size());
   readed_size = input_file.gcount();
   ... dispatch task over (buffer, readed_size) with id block_counter++ ...
}
```

`std::istream::read(buf, bs)` sets the eof bit only when the end of the
stream is reached *during* the extraction, i.e. when fewer than `bs` bytes
remain.  Reading exactly the remaining `bs` bytes succeeds without setting
the eof bit, so the loop runs one more time and dispatches a block of
`gcount() = 0` bytes.  `readBlocks` returns, in order, the byte contents
actually read for each dispatched block (the first `readed_size` bytes of
the buffer). -/

/-- The sequence of blocks (bytes actually read per dispatched task)
produced by the read loop on the given input stream.  For `bs = 0` the
C++ loop would never terminate; the program only ever calls this with
`bs ≥ 1024` (enforced by `block_size::set` and the 1 MiB default). -/
def readBlocks (bs : Nat) (input : List Nat) : List (List Nat) :=
  if _h0 : bs = 0 then []
  else if _h : input.length < bs then
    [input]
  else
    input.take bs :: readBlocks bs (input.drop bs)
termination_by input.length
decreasing_by
  simp only [List.length_drop]
  omega

/-- Model of the checksum task body: `process_bytes(buffer_ptr->data(),
readed_size)` runs the checksum algorithm over exactly the first
`readed_size` bytes of the buffer.  The checksum algorithm itself
(`boost::crc_32_type`) is external; it is abstracted as a pure function
from byte sequences to values. -/
def taskChecksum (checksum : List Nat → Nat) (buffer : List Nat)
    (readed_size : Nat) : Nat :=
  checksum (buffer.take readed_size)

/-- The buffer a task receives for a block of `len` read bytes:
`vector<char>(bs, 0)` is allocated zero-filled and `read` fills its first
`len` positions. -/
def taskBuffer (bs : Nat) (block : List Nat) : List Nat :=
  block ++ List.replicate (bs - block.length) 0

/-! ## Pipeline traces

The mutex `block_crc_map_mutex` serialises every access to the map, so a
run of the pipeline is a sequence of atomic events: a task completion
(`insert` of `(j, v j)` into the map) or an invocation of `crc_saver`
under the lock.  The producer's in-loop backpressure check
(`if (block_crc_map.size() >= BLOCK_CRC_MAP_PROCESSING_SIZE) crc_saver()`)
is the `check` event; the final drain loop invokes `crc_saver`
unconditionally (`flush`). -/

inductive PoolEvent where
  /-- Task `j` finishes: it inserts `(j, v j)` into the map. -/
  | complete (j : Nat)
  /-- An unconditional `crc_saver()` call (the final drain loop). -/
  | flush
  /-- The producer's post-dispatch check: `crc_saver()` iff the map holds
  at least `BLOCK_CRC_MAP_PROCESSING_SIZE` records. -/
  | check
deriving DecidableEq, Repr

/-- Shared state of the pipeline: the result map, the flush cursor
`last_processed_block_id`, and the values written so far to the output
stream. -/
structure RunState where
  m : List (Nat × Nat)
  cursor : Nat
  out : List Nat
deriving DecidableEq, Repr

def initState : RunState := { m := [], cursor := 0, out := [] }

/-- One `crc_saver()` invocation on the shared state. -/
def flushStep (s : RunState) : RunState :=
  let r := crc_saver s.m s.cursor
  { m := r.1, cursor := r.2.1, out := s.out ++ r.2.2 }

/-- One atomic event of a pipeline run, with `v j` the checksum value task
`j` inserts. -/
def stepEvent (v : Nat → Nat) : PoolEvent → RunState → RunState
  | .complete j, s => { s with m := (mapInsert s.m j (v j)).1 }
  | .flush, s => flushStep s
  | .check, s =>
    if BLOCK_CRC_MAP_PROCESSING_SIZE ≤ s.m.length then flushStep s else s

/-- Run a whole trace of events. -/
def runTrace (v : Nat → Nat) (es : List PoolEvent) (s : RunState) : RunState :=
  es.foldl (fun st e => stepEvent v e st) s

/-- The indices of the completion events of a trace, in order. -/
def completions (es : List PoolEvent) : List Nat :=
  es.filterMap (fun e => match e with | .complete j => some j | _ => none)

/-- A trace is valid for `k` dispatched blocks when every block index
below `k` completes exactly once and no other index ever completes; the
`flush` / `check` events may appear anywhere. -/
def ValidTrace (k : Nat) (es : List PoolEvent) : Prop :=
  (completions es).Nodup ∧ ∀ j, j ∈ completions es ↔ j < k

instance (k : Nat) (es : List PoolEvent) : Decidable (ValidTrace k es) :=
  decidable_of_iff
    ((completions es).Nodup ∧ (∀ j ∈ completions es, j < k) ∧
      ∀ j < k, j ∈ completions es)
    (by
      unfold ValidTrace
      constructor
      · rintro ⟨h1, h2, h3⟩
        exact ⟨h1, fun j => ⟨fun hj => h2 j hj, fun hj => h3 j hj⟩⟩
      · rintro ⟨h1, h2⟩
        exact ⟨h1, fun j hj => (h2 j).1 hj, fun j hj => (h2 j).2 hj⟩)

/-- Count of computed-but-unflushed records currently in the store. -/
def unflushedCount (s : RunState) : Nat :=
  (s.m.filter (fun p => s.cursor ≤ p.1)).length

/-! ## The read loop with allocation failures (later revision of `main`)

```
try {
   buffer_ptr = make_shared<vector<char>>(block_size_value.get(), 0);
   input_file.read(buffer_ptr->data(), buffer_ptr->size());
   readed_size = input_file.gcount();
}
catch (const std::bad_alloc & err) {
   std::this_thread::sleep_for(std::chrono::milliseconds(10));
   continue;
}
catch (const std::exception & err) {
   std::cerr << "unexpected exception: " << err.what() << std::endl;
   tp.stop();
   return EXIT_FAILURE;
}
```

Each iteration's outcome is drawn from an environment-chosen list; once
the list is exhausted every later allocation succeeds. -/

inductive ReadOutcome where
  /-- Allocation and read succeed. -/
  | ok
  /-- `std::bad_alloc` is thrown while acquiring the buffer. -/
  | badAlloc
  /-- Some other exception is thrown. -/
  | ioError
deriving DecidableEq, Repr

/-- Result of running the read loop of the later `main` revision:
the number of 10 ms backoff sleeps performed, the dispatched
`(sequence index, block bytes)` pairs in dispatch order, and whether the
loop aborted the pipeline with `EXIT_FAILURE`. -/
structure ReadLoopResult where
  sleeps : Nat
  dispatched : List (Nat × List Nat)
  fatal : Bool
deriving DecidableEq, Repr

/-- Tag each block with its `block_counter` sequence index, starting at
`ctr`. -/
def indexFrom (ctr : Nat) : List (List Nat) → List (Nat × List Nat)
  | [] => []
  | b :: bs => (ctr, b) :: indexFrom (ctr + 1) bs

/-- The read loop of the later `main` revision, with per-iteration
outcomes supplied by `outcomes` (exhaustion of the list means all further
allocations succeed).  A `badAlloc` outcome sleeps and retries the same
read without advancing `block_counter`; an `ioError` outcome stops the
pool and exits with `EXIT_FAILURE`; an `ok` outcome reads and dispatches
the next block. -/
def runReadLoop (bs : Nat) : List ReadOutcome → List Nat → Nat → ReadLoopResult
  | [], input, ctr =>
    { sleeps := 0, dispatched := indexFrom ctr (readBlocks bs input),
      fatal := false }
  | .badAlloc :: rest, input, ctr =>
    let r := runReadLoop bs rest input ctr
    { r with sleeps := r.sleeps + 1 }
  | .ioError :: _, _, _ =>
    { sleeps := 0, dispatched := [], fatal := true }
  | .ok :: rest, input, ctr =>
    if bs = 0 then { sleeps := 0, dispatched := [], fatal := false }
    else if input.length < bs then
      { sleeps := 0, dispatched := [(ctr, input)], fatal := false }
    else
      let r := runReadLoop bs rest (input.drop bs) (ctr + 1)
      { r with dispatched := (ctr, input.take bs) :: r.dispatched }

/-! ## Pre-pipeline control flow of `main`

The externally observable actions `main` performs between option parsing
and the start of the processing loop, in program order. -/

inductive MainAction where
  /-- The parse-failure handler prints `e.what()` to `std::cerr`. -/
  | errParse
  /-- The options description is printed (help requested or no args). -/
  | printHelp
  /-- `"input and output files are same"` is printed to `std::cerr`. -/
  | errSameFiles
  /-- The `std::ifstream` on the input path is opened. -/
  | openInputFile
  /-- The `std::ofstream` on the output path is opened with
  `std::ios::trunc`. -/
  | openOutputTrunc
  /-- The processing pipeline runs. -/
  | runPipeline
deriving DecidableEq, Repr

/-- Control flow of `main` from option parsing to the processing loop
(`signature.cpp`): the returned actions happen in order, and the exit code
is `some code` when `main` returns before reaching the pipeline. -/
def mainFlow (parseOk : Bool) (helpRequested : Bool) (argcIsOne : Bool)
    (input_file_name output_file_name : String) :
    List MainAction × Option Nat :=
  if !parseOk then ([MainAction.errParse], some 1)
  else if helpRequested || argcIsOne then ([MainAction.printHelp], some 0)
  else if input_file_name = output_file_name then
    ([MainAction.errSameFiles], some 1)
  else
    ([MainAction.openInputFile, MainAction.openOutputTrunc,
      MainAction.runPipeline], none)

/-! ## Further derived pipeline notions -/

/-- The checksums of all dispatched blocks in sequence order: each task
checksums the first `readed_size` bytes of its buffer. -/
def blockChecksums (checksum : List Nat → Nat) (bs : Nat)
    (input : List Nat) : List Nat :=
  (readBlocks bs input).map
    (fun b => taskChecksum checksum (taskBuffer bs b) b.length)

/-- Sequentially perform the result-store insertions of a list of
completed tasks, in completion order, starting from map `m`; returns the
final map and the sequence indices whose insertion hit the duplicate-key
branch (each of which the task reports on `std::cerr`). -/
def insertAllFrom (m : List (Nat × Nat)) :
    List (Nat × Nat) → List (Nat × Nat) × List Nat
  | [] => (m, [])
  | (k, v) :: rest =>
    let r := mapInsert m k v
    let rec2 := insertAllFrom r.1 rest
    if r.2 then rec2 else (rec2.1, k :: rec2.2)

/-- Insertions of a list of completed tasks into an initially empty
result store. -/
def insertAll (pairs : List (Nat × Nat)) : List (Nat × Nat) × List Nat :=
  insertAllFrom [] pairs

/-- A completion schedule in which task 0 never finishes during the read
loop: for each of the `n` dispatch iterations, every task except task 0
completes immediately after its dispatch, and then the producer's
backpressure check runs. -/
def delayedZeroTrace (n : Nat) : List PoolEvent :=
  (List.range n).flatMap
    (fun i => if i = 0 then [PoolEvent.check]
              else [PoolEvent.complete i, PoolEvent.check])

/-! ## Lemmas about the map model -/

lemma mapFind_append (m₁ m₂ : List (Nat × Nat)) (k : Nat) :
    mapFind (m₁ ++ m₂) k =
      match mapFind m₁ k with
      | some v => some v
      | none => mapFind m₂ k := by
  induction m₁ with
  | nil => simp [mapFind]
  | cons p m₁ ih =>
    obtain ⟨a, b⟩ := p
    by_cases h : a = k <;> simp [mapFind, h, ih]

lemma mapFind_mem_keys {m : List (Nat × Nat)} {k v : Nat}
    (h : mapFind m k = some v) : k ∈ m.map Prod.fst := by
  induction m with
  | nil => simp [mapFind] at h
  | cons p m ih =>
    obtain ⟨a, b⟩ := p
    by_cases hak : a = k
    · simp [hak]
    · simp only [mapFind, if_neg hak] at h
      simp [ih h]

lemma length_filter_ge_succ_lt {l : List Nat} {c : Nat} (hnd : l.Nodup)
    (hc : c ∈ l) :
    (l.filter (fun k => c + 1 ≤ k)).length <
      (l.filter (fun k => c ≤ k)).length := by
  induction l with
  | nil => simp at hc
  | cons a l ih =>
    have hnd' : l.Nodup := (List.nodup_cons.mp hnd).2
    by_cases hac : a = c
    · subst hac
      have hmono : (List.filter (fun k => decide (a + 1 ≤ k)) l).length ≤
          (List.filter (fun k => decide (a ≤ k)) l).length := by
        refine List.Sublist.length_le ?_
        refine List.monotone_filter_right l ?_
        intro x hx
        simp only [decide_eq_true_eq] at hx ⊢
        omega
      have h1 : ¬ (a + 1 ≤ a) := by omega
      simp only [List.filter_cons, decide_eq_true_eq]
      rw [if_neg h1, if_pos (Nat.le_refl a)]
      simp only [List.length_cons]
      omega
    · have hc' : c ∈ l := by
        rcases List.mem_cons.mp hc with h | h
        · exact absurd h.symm hac
        · exact h
      have hlt := ih hnd' hc'
      simp only [List.filter_cons, decide_eq_true_eq]
      by_cases h1 : c + 1 ≤ a
      · rw [if_pos h1, if_pos (by omega : c ≤ a)]
        simp only [List.length_cons]
        omega
      · have h2 : ¬ (c ≤ a) := by omega
        rw [if_neg h1, if_neg h2]
        exact hlt

lemma keyCount_succ_lt {m : List (Nat × Nat)} {c v : Nat}
    (h : mapFind m c = some v) : keyCount m (c + 1) < keyCount m c := by
  unfold keyCount
  exact length_filter_ge_succ_lt (List.nodup_dedup _)
    (List.mem_dedup.mpr (mapFind_mem_keys h))

lemma keyCount_le_length (m : List (Nat × Nat)) (c : Nat) :
    keyCount m c ≤ m.length := by
  unfold keyCount
  calc ((m.map Prod.fst).dedup.filter (fun k => c ≤ k)).length
      ≤ (m.map Prod.fst).dedup.length := List.length_filter_le _ _
    _ ≤ (m.map Prod.fst).length := (List.dedup_sublist _).length_le
    _ = m.length := List.length_map _ _

/-- Characterisation of the `crc_saver` loop, for any sufficient fuel:
it writes exactly the values stored at `c, c + 1, …` up to the first
absent index, and the cursor advances by the number of written values. -/
lemma crcSaverLoop_spec (fuel : Nat) :
    ∀ (m : List (Nat × Nat)) (c : Nat), keyCount m c < fuel →
    (crcSaverLoop fuel m c).1 = c + (crcSaverLoop fuel m c).2.length ∧
    (∀ i, i < (crcSaverLoop fuel m c).2.length →
      mapFind m (c + i) = (crcSaverLoop fuel m c).2[i]?) ∧
    mapFind m (c + (crcSaverLoop fuel m c).2.length) = none := by
  induction fuel with
  | zero => intro m c h; omega
  | succ fuel ih =>
    intro m c h
    cases hfind : mapFind m c with
    | none =>
      refine ⟨by simp [crcSaverLoop, hfind], ?_, by simp [crcSaverLoop, hfind]⟩
      intro i hi
      simp [crcSaverLoop, hfind] at hi
    | some v =>
      have hcc : keyCount m (c + 1) < fuel :=
        Nat.lt_of_lt_of_le (keyCount_succ_lt hfind) (Nat.lt_succ_iff.mp h)
      obtain ⟨ih1, ih2, ih3⟩ := ih m (c + 1) hcc
      refine ⟨?_, ?_, ?_⟩
      · simp only [crcSaverLoop, hfind]
        simp only [List.length_cons]
        omega
      · intro i hi
        simp only [crcSaverLoop, hfind] at hi ⊢
        cases i with
        | zero => simpa using hfind
        | succ j =>
          simp only [List.length_cons] at hi
          have := ih2 j (by omega)
          simpa [Nat.add_comm, Nat.add_assoc, Nat.add_left_comm] using this
      · simp only [crcSaverLoop, hfind, List.length_cons]
        have := ih3
        have harith : c + (1 + (crcSaverLoop fuel m (c + 1)).2.length) =
            c + 1 + (crcSaverLoop fuel m (c + 1)).2.length := by omega
        simpa [Nat.add_comm, Nat.add_assoc, Nat.add_left_comm] using this

/-- Characterisation of one `crc_saver` call: the map is returned
unchanged (records are never erased), the cursor advances by the number of
written values, the written values are exactly the records stored at
`cursor, cursor + 1, …`, and the first index past the written run is
absent from the map. -/
lemma crc_saver_spec (m : List (Nat × Nat)) (c : Nat) :
    (crc_saver m c).1 = m ∧
    (crc_saver m c).2.1 = c + (crc_saver m c).2.2.length ∧
    (∀ i, i < (crc_saver m c).2.2.length →
      mapFind m (c + i) = (crc_saver m c).2.2[i]?) ∧
    mapFind m (c + (crc_saver m c).2.2.length) = none := by
  have hfuel : keyCount m c < m.length + 1 :=
    Nat.lt_succ_of_le (keyCount_le_length m c)
  obtain ⟨h1, h2, h3⟩ := crcSaverLoop_spec (m.length + 1) m c hfuel
  exact ⟨rfl, h1, h2, h3⟩

lemma mapFind_mapInsert_fresh {m : List (Nat × Nat)} {k v : Nat}
    (h : mapFind m k = none) (j : Nat) :
    mapFind (mapInsert m k v).1 j = if j = k then some v else mapFind m j := by
  unfold mapInsert
  rw [h]
  simp only
  rw [mapFind_append]
  by_cases hjk : j = k
  · subst hjk
    rw [h]
    simp [mapFind]
  · cases hfind : mapFind m j with
    | none => simp [mapFind, hjk, Ne.symm hjk]
    | some w => simp [hjk]

lemma mapFind_mapInsert_dup {m : List (Nat × Nat)} {k v w : Nat}
    (h : mapFind m k = some w) :
    mapInsert m k v = (m, false) := by
  unfold mapInsert
  rw [h]

/-! ## The trace invariant

After any prefix of a valid pipeline run, the map holds exactly the
checksums of the completed tasks, the output stream holds exactly
`v 0, …, v (cursor - 1)`, and the cursor never passes the number of
dispatched blocks. -/

/-- One `crc_saver` call preserves the invariant: the map is untouched and
the output stays the `v`-image of an initial segment of indices. -/
lemma flushStep_inv {k : Nat} {v : Nat → Nat} {done : List Nat} {s : RunState}
    (hfind : ∀ j, mapFind s.m j = if j ∈ done then some (v j) else none)
    (hdone : ∀ j ∈ done, j < k)
    (hout : s.out = (List.range s.cursor).map v)
    (hcur : s.cursor ≤ k) :
    (flushStep s).m = s.m ∧
    (flushStep s).out = (List.range (flushStep s).cursor).map v ∧
    (flushStep s).cursor ≤ k := by
  obtain ⟨hm, hc, hvals, hgap⟩ := crc_saver_spec s.m s.cursor
  set r := crc_saver s.m s.cursor with hr
  have hmem : ∀ i, i < r.2.2.length → s.cursor + i ∈ done := by
    intro i hi
    have := hvals i hi
    by_contra hno
    rw [hfind (s.cursor + i), if_neg hno] at this
    have hlen : i < r.2.2.length := hi
    rw [List.getElem?_eq_getElem hlen] at this
    exact Option.noConfusion this
  have hwritten : r.2.2 = (List.range r.2.2.length).map
      (fun i => v (s.cursor + i)) := by
    apply List.ext_getElem?
    intro n
    by_cases hn : n < r.2.2.length
    · have h1 := hvals n hn
      rw [hfind (s.cursor + n), if_pos (hmem n hn)] at h1
      rw [← h1]
      simp [List.getElem?_range, hn]
    · rw [List.getElem?_eq_none (by omega), List.getElem?_eq_none (by simp; omega)]
  have hcur' : s.cursor + r.2.2.length ≤ k := by
    cases hlen : r.2.2.length with
    | zero => omega
    | succ n =>
      have := hdone _ (hmem n (by omega))
      omega
  refine ⟨rfl, ?_, ?_⟩
  · show s.out ++ r.2.2 = (List.range r.2.1).map v
    rw [hc, hout]
    conv_lhs => rw [hwritten]
    rw [List.range_add, List.map_append, List.map_map]
    simp [Function.comp]
  · show r.2.1 ≤ k
    rw [hc]
    exact hcur'

/-- The pipeline-run invariant, by induction over the remaining events. -/
lemma runTrace_inv (k : Nat) (v : Nat → Nat) :
    ∀ (es : List PoolEvent) (s : RunState) (done : List Nat),
    (done ++ completions es).Nodup →
    (∀ j ∈ done ++ completions es, j < k) →
    (∀ j, mapFind s.m j = if j ∈ done then some (v j) else none) →
    s.out = (List.range s.cursor).map v →
    s.cursor ≤ k →
    (∀ j, mapFind (runTrace v es s).m j =
        if j ∈ done ++ completions es then some (v j) else none) ∧
    (runTrace v es s).out = (List.range (runTrace v es s).cursor).map v ∧
    (runTrace v es s).cursor ≤ k := by
  intro es
  induction es with
  | nil =>
    intro s done _ _ hfind hout hcur
    simpa [runTrace, completions] using ⟨hfind, hout, hcur⟩
  | cons e es ih =>
    intro s done hnd hlt hfind hout hcur
    cases e with
    | complete j =>
      have hcomp : completions (PoolEvent.complete j :: es) =
          j :: completions es := by simp [completions]
      rw [hcomp] at hnd hlt
      have hassoc : done ++ j :: completions es =
          (done ++ [j]) ++ completions es := by simp
      have hjdone : j ∉ done := by
        intro hj
        exact (List.nodup_append.mp hnd).2.2 hj (by simp)
      have hfresh : mapFind s.m j = none := by
        rw [hfind j, if_neg hjdone]
      have hstep : runTrace v (PoolEvent.complete j :: es) s =
          runTrace v es { s with m := (mapInsert s.m j (v j)).1 } := by
        simp [runTrace, stepEvent]
      rw [hstep, hcomp, hassoc]
      refine ih _ (done ++ [j]) (by simpa using hnd) ?_ ?_ hout hcur
      · intro x hx
        refine hlt x ?_
        rcases List.mem_append.mp hx with h | h
        · rcases List.mem_append.mp h with h | h
          · exact List.mem_append.mpr (Or.inl h)
          · simp at h
            subst h
            exact List.mem_append.mpr (Or.inr (by simp))
        · exact List.mem_append.mpr (Or.inr (by simp [h]))
      · intro x
        rw [mapFind_mapInsert_fresh hfresh]
        by_cases hx : x = j
        · subst hx
          rw [if_pos rfl, if_pos (by simp)]
        · rw [if_neg hx, hfind x]
          by_cases hxd : x ∈ done
          · rw [if_pos hxd, if_pos (by simp [hxd])]
          · rw [if_neg hxd, if_neg (by simp [hxd, hx])]
    | flush =>
      have hcomp : completions (PoolEvent.flush :: es) = completions es := by
        simp [completions]
      rw [hcomp] at hnd hlt ⊢
      have hdone : ∀ j ∈ done, j < k := fun j hj =>
        hlt j (List.mem_append.mpr (Or.inl hj))
      obtain ⟨hm, hout', hcur'⟩ := flushStep_inv hfind hdone hout hcur
      have hstep : runTrace v (PoolEvent.flush :: es) s =
          runTrace v es (flushStep s) := by
        simp [runTrace, stepEvent]
      rw [hstep]
      exact ih _ done hnd hlt (by rw [hm]; exact hfind) hout' hcur'
    | check =>
      have hcomp : completions (PoolEvent.check :: es) = completions es := by
        simp [completions]
      rw [hcomp] at hnd hlt ⊢
      have hdone : ∀ j ∈ done, j < k := fun j hj =>
        hlt j (List.mem_append.mpr (Or.inl hj))
      have hstep : runTrace v (PoolEvent.check :: es) s =
          runTrace v es (stepEvent v PoolEvent.check s) := by
        simp [runTrace]
      rw [hstep]
      by_cases hsize : BLOCK_CRC_MAP_PROCESSING_SIZE ≤ s.m.length
      · obtain ⟨hm, hout', hcur'⟩ := flushStep_inv hfind hdone hout hcur
        have : stepEvent v PoolEvent.check s = flushStep s := by
          simp [stepEvent, hsize]
        rw [this]
        exact ih _ done hnd hlt (by rw [hm]; exact hfind) hout' hcur'
      · have : stepEvent v PoolEvent.check s = s := by
          simp [stepEvent, hsize]
        rw [this]
        exact ih _ done hnd hlt hfind hout hcur

/-- After a valid trace and one final `crc_saver` call (the drain loop),
the cursor equals the number of dispatched blocks and the output stream
holds exactly `v 0, …, v (k - 1)` in order. -/
lemma drain_final (k : Nat) (v : Nat → Nat) (es : List PoolEvent)
    (hvalid : ValidTrace k es) :
    (flushStep (runTrace v es initState)).out = (List.range k).map v ∧
    (flushStep (runTrace v es initState)).cursor = k := by
  obtain ⟨hnd, hiff⟩ := hvalid
  have hbase := runTrace_inv k v es initState []
    (by simpa using hnd)
    (by intro j hj; exact (hiff j).1 (by simpa using hj))
    (by intro j; simp [initState, mapFind])
    (by simp [initState])
    (by simp [initState])
  obtain ⟨hfind, hout, hcur⟩ := hbase
  simp only [List.nil_append] at hfind
  set t := runTrace v es initState with ht
  have hfind' : ∀ j, mapFind t.m j = if j < k then some (v j) else none := by
    intro j
    rw [hfind j]
    by_cases hj : j < k
    · rw [if_pos ((hiff j).mpr hj), if_pos hj]
    · rw [if_neg (fun hc => hj ((hiff j).mp (by simpa using hc))), if_neg hj]
  obtain ⟨hm, hc, hvals, hgap⟩ := crc_saver_spec t.m t.cursor
  set r := crc_saver t.m t.cursor with hr
  have hlen : t.cursor + r.2.2.length = k := by
    have hgap' := hgap
    rw [hfind' (t.cursor + r.2.2.length)] at hgap'
    have hge : k ≤ t.cursor + r.2.2.length := by
      by_contra hno
      rw [if_pos (by omega)] at hgap'
      exact Option.noConfusion hgap'
    have hle : t.cursor + r.2.2.length ≤ k := by
      by_contra hno
      have hlast : r.2.2.length ≠ 0 := by
        intro h0
        rw [h0] at hno
        omega
      have hi : r.2.2.length - 1 < r.2.2.length := by omega
      have := hvals _ hi
      rw [hfind' (t.cursor + (r.2.2.length - 1))] at this
      by_cases hin : t.cursor + (r.2.2.length - 1) < k
      · omega
      · rw [if_neg hin] at this
        rw [List.getElem?_eq_getElem hi] at this
        exact Option.noConfusion this
    omega
  have hdone : ∀ j ∈ (List.range k).filter (fun _ => true), j < k := by
    simp
  have hflush := @flushStep_inv k v ((List.range k).filter (fun _ => true)) t
    (by intro j; rw [hfind' j]; by_cases hj : j < k
        · rw [if_pos hj, if_pos (by simp [hj])]
        · rw [if_neg hj, if_neg (by simp [hj])])
    hdone hout hcur
  obtain ⟨_, hout', _⟩ := hflush
  have hcursor : (flushStep t).cursor = k := by
    show r.2.1 = k
    rw [hc]
    exact hlen
  exact ⟨by rw [hout', hcursor], hcursor⟩

/-! ## Lemmas about the read loop and the task -/

lemma readBlocks_small {bs : Nat} (hbs : bs ≠ 0) {input : List Nat}
    (h : input.length < bs) : readBlocks bs input = [input] := by
  rw [readBlocks]
  simp [hbs, h]

lemma readBlocks_big {bs : Nat} (hbs : bs ≠ 0) {input : List Nat}
    (h : ¬ input.length < bs) :
    readBlocks bs input = input.take bs :: readBlocks bs (input.drop bs) := by
  rw [readBlocks]
  simp [hbs, h]

/-- The read loop always dispatches `input_size / block_size + 1` blocks:
the trailing `+ 1` is the partial final block when the block size does not
divide the input size, and a zero-length block (read after the stream is
exactly exhausted, before `eof()` turns true) when it does. -/
lemma readBlocks_length_aux (bs : Nat) (hbs : 0 < bs) (n : Nat) :
    ∀ input : List Nat, input.length = n →
      (readBlocks bs input).length = input.length / bs + 1 := by
  induction n using Nat.strong_induction_on with
  | _ n ih => ?_
  intro input hn
  by_cases h : input.length < bs
  · rw [readBlocks_small (by omega) h]
    rw [Nat.div_eq_of_lt h]
    rfl
  · rw [readBlocks_big (by omega) h]
    rw [List.length_cons]
    have hdrop : (input.drop bs).length < n := by
      rw [List.length_drop]
      omega
    rw [ih _ hdrop _ rfl]
    rw [List.length_drop]
    have heq : input.length / bs = (input.length - bs) / bs + 1 :=
      Nat.div_eq_sub_div hbs (by omega)
    rw [heq]

lemma readBlocks_length (bs : Nat) (hbs : 0 < bs) (input : List Nat) :
    (readBlocks bs input).length = input.length / bs + 1 :=
  readBlocks_length_aux bs hbs input.length input rfl

/-- Every dispatched block holds at most `block_size` bytes. -/
lemma readBlocks_length_le_aux (bs : Nat) (n : Nat) :
    ∀ input : List Nat, input.length = n →
    ∀ b ∈ readBlocks bs input, b.length ≤ bs := by
  induction n using Nat.strong_induction_on with
  | _ n ih => ?_
  intro input hn
  by_cases hbs : bs = 0
  · rw [readBlocks]
    simp [hbs]
  by_cases h : input.length < bs
  · rw [readBlocks_small hbs h]
    intro b hb
    simp at hb
    subst hb
    omega
  · rw [readBlocks_big hbs h]
    intro b hb
    rcases List.mem_cons.mp hb with hb | hb
    · subst hb
      simp
    · have hdrop : (input.drop bs).length < n := by
        rw [List.length_drop]
        omega
      exact ih _ hdrop _ rfl b hb

lemma readBlocks_length_le (bs : Nat) (input : List Nat) :
    ∀ b ∈ readBlocks bs input, b.length ≤ bs :=
  readBlocks_length_le_aux bs input.length input rfl

/-- The checksum task runs the algorithm over exactly the bytes that were
read: the first `readed_size` positions of the zero-padded buffer are the
block itself. -/
lemma taskChecksum_block (checksum : List Nat → Nat) (bs : Nat)
    (block : List Nat) :
    taskChecksum checksum (taskBuffer bs block) block.length =
      checksum block := by
  unfold taskChecksum taskBuffer
  rw [List.take_left]

lemma blockChecksums_eq_map (checksum : List Nat → Nat) (bs : Nat)
    (input : List Nat) :
    blockChecksums checksum bs input = (readBlocks bs input).map checksum := by
  unfold blockChecksums
  simp [taskChecksum_block]

lemma range_length_map_getD {α β : Type} (l : List α) (d : α) (f : α → β) :
    (List.range l.length).map (fun j => f (l.getD j d)) = l.map f := by
  induction l with
  | nil => simp
  | cons x xs ih =>
    rw [List.length_cons, List.range_succ_eq_map, List.map_cons, List.map_map]
    refine congrArg₂ List.cons (by simp) ?_
    simpa [Function.comp_def, Nat.succ_eq_add_one, List.getD,
      List.getElem?_cons_succ] using ih

/-! ## Lemmas about the allocation-retry read loop -/

lemma runReadLoop_no_ioError (bs : Nat) (hbs : 0 < bs) :
    ∀ (allocs : List ReadOutcome), ReadOutcome.ioError ∉ allocs →
    ∀ (input : List Nat) (ctr : Nat),
    (runReadLoop bs allocs input ctr).dispatched =
      indexFrom ctr (readBlocks bs input) ∧
    (runReadLoop bs allocs input ctr).fatal = false := by
  intro allocs
  induction allocs with
  | nil =>
    intro _ input ctr
    constructor
    · rfl
    · rfl
  | cons a rest ih =>
    intro hno input ctr
    have hno' : ReadOutcome.ioError ∉ rest := by
      intro h
      exact hno (List.mem_cons.mpr (Or.inr h))
    cases a with
    | ioError => exact absurd (List.mem_cons.mpr (Or.inl rfl)) hno
    | badAlloc =>
      obtain ⟨h1, h2⟩ := ih hno' input ctr
      exact ⟨h1, h2⟩
    | ok =>
      by_cases h : input.length < bs
      · rw [readBlocks_small (by omega) h]
        simp only [runReadLoop, if_neg (by omega : ¬ bs = 0), if_pos h]
        refine ⟨rfl, ?_⟩
        trivial
      · obtain ⟨h1, h2⟩ := ih hno' (input.drop bs) (ctr + 1)
        rw [readBlocks_big (by omega) h]
        simp only [runReadLoop, if_neg (by omega : ¬ bs = 0), if_neg h]
        refine ⟨?_, ?_⟩
        · show (ctr, input.take bs) ::
              (runReadLoop bs rest (input.drop bs) (ctr + 1)).dispatched = _
          rw [h1]
          rfl
        · show (runReadLoop bs rest (input.drop bs) (ctr + 1)).fatal = false
          exact h2

/-! ## Lemmas about duplicate-free insertion -/

lemma insertAllFrom_nodup (pairs : List (Nat × Nat)) :
    ∀ m : List (Nat × Nat), (pairs.map Prod.fst).Nodup →
    (∀ k ∈ pairs.map Prod.fst, mapFind m k = none) →
    (insertAllFrom m pairs).2 = [] := by
  induction pairs with
  | nil => intro m _ _; rfl
  | cons p rest ih =>
    intro m hnd hdisj
    obtain ⟨k, v⟩ := p
    have hk : mapFind m k = none := hdisj k (by simp)
    have hins : mapInsert m k v = (m ++ [(k, v)], true) := by
      unfold mapInsert
      rw [hk]
    show (insertAllFrom m ((k, v) :: rest)).2 = []
    unfold insertAllFrom
    rw [hins]
    simp only [if_pos]
    refine ih (m ++ [(k, v)]) ?_ ?_
    · exact (List.nodup_cons.mp (by simpa using hnd)).2
    · intro k' hk'
      rw [mapFind_append]
      rw [hdisj k' (by simp [hk'])]
      have hkk : k' ≠ k := by
        intro he
        subst he
        exact (List.nodup_cons.mp (by simpa using hnd)).1 hk'
      simp [mapFind, Ne.symm hkk]

/-! ## Lemmas about `block_size::set` -/

lemma suffixMultiplier_pos (suffix : Nat) : 0 < suffixMultiplier suffix := by
  unfold suffixMultiplier
  split_ifs <;> decide

lemma not_outer_guard {suffix : Nat}
    (hsuf : suffix = 0 ∨ suffix = suffixK ∨ suffix = suffixM ∨
      suffix = suffixG) :
    ¬ (suffix ≠ 0 ∧ suffix ≠ suffixK ∧ suffix ≠ suffixM ∧
      suffix ≠ suffixG) := by
  rcases hsuf with h | h | h | h <;> simp [h]

/-- With a known (or absent) suffix and `number = 0`, the first overflow
check passes vacuously and the second divides `UINT64_MAX` by zero. -/
lemma BlockSize.set_zero {suffix : Nat} (s : BlockSize)
    (hsuf : suffix = 0 ∨ suffix = suffixK ∨ suffix = suffixM ∨
      suffix = suffixG) :
    BlockSize.set s 0 suffix = none := by
  have hpos := suffixMultiplier_pos suffix
  unfold BlockSize.set
  rw [if_neg (not_outer_guard hsuf),
    if_neg (by omega : ¬ suffixMultiplier suffix = 0),
    if_neg (Nat.not_lt_zero (UINT64_MAX / suffixMultiplier suffix)),
    if_pos rfl]

/-- An unknown suffix character makes `set` return `false` at once. -/
lemma BlockSize.set_invalid {suffix : Nat} (s : BlockSize) (number : Nat)
    (hsuf : ¬ (suffix = 0 ∨ suffix = suffixK ∨ suffix = suffixM ∨
      suffix = suffixG)) :
    BlockSize.set s number suffix = some (false, s) := by
  unfold BlockSize.set
  rw [if_pos (by push_neg at hsuf; exact hsuf)]

/-- When the product would not fit in a uint64, the first overflow check
returns `false`. -/
lemma BlockSize.set_overflow {suffix : Nat} (s : BlockSize) (number : Nat)
    (hsuf : suffix = 0 ∨ suffix = suffixK ∨ suffix = suffixM ∨
      suffix = suffixG)
    (hbig : UINT64_MAX < number * suffixMultiplier suffix) :
    BlockSize.set s number suffix = some (false, s) := by
  have hpos := suffixMultiplier_pos suffix
  have hdiv : UINT64_MAX / suffixMultiplier suffix < number :=
    (Nat.div_lt_iff_lt_mul hpos).mpr hbig
  unfold BlockSize.set
  rw [if_neg (not_outer_guard hsuf),
    if_neg (by omega : ¬ suffixMultiplier suffix = 0), if_pos hdiv]

/-- With a valid suffix, a nonzero number and a product that fits in a
uint64, `set` reduces to the kilobyte-minimum test. -/
lemma BlockSize.set_fits {suffix : Nat} (s : BlockSize) (number : Nat)
    (hsuf : suffix = 0 ∨ suffix = suffixK ∨ suffix = suffixM ∨
      suffix = suffixG)
    (hzero : number ≠ 0)
    (hfit : number * suffixMultiplier suffix ≤ UINT64_MAX) :
    BlockSize.set s number suffix =
      if number * suffixMultiplier suffix < BLOCK_SIZE_KILOBYTE then
        some (false, s)
      else
        some (true, { number := number, suffix := suffixMultiplier suffix }) := by
  have hpos := suffixMultiplier_pos suffix
  have hd1 : ¬ UINT64_MAX / suffixMultiplier suffix < number := by
    rw [Nat.not_lt, Nat.le_div_iff_mul_le hpos]
    exact hfit
  have hd2 : ¬ UINT64_MAX / number < suffixMultiplier suffix := by
    rw [Nat.not_lt, Nat.le_div_iff_mul_le (by omega : 0 < number),
      Nat.mul_comm]
    exact hfit
  have hmod : number * suffixMultiplier suffix % 2 ^ 64 =
      number * suffixMultiplier suffix := by
    apply Nat.mod_eq_of_lt
    have hM : UINT64_MAX = 2 ^ 64 - 1 := rfl
    omega
  unfold BlockSize.set
  rw [if_neg (not_outer_guard hsuf),
    if_neg (by omega : ¬ suffixMultiplier suffix = 0), if_neg hd1,
    if_neg hzero, if_neg hd2, hmod]

/-- Whole-pipeline output: for any valid completion schedule, the output
after the final drain is the checksums of the dispatched blocks in
sequence order. -/
lemma pipeline_output (checksum : List Nat → Nat) (bs : Nat)
    (input : List Nat) (es : List PoolEvent)
    (hvalid : ValidTrace (readBlocks bs input).length es) :
    (flushStep (runTrace
      (fun j => (blockChecksums checksum bs input).getD j 0) es
      initState)).out = (readBlocks bs input).map checksum := by
  have hk : (blockChecksums checksum bs input).length =
      (readBlocks bs input).length := by
    unfold blockChecksums
    rw [List.length_map]
  obtain ⟨hout, hcur⟩ := drain_final (readBlocks bs input).length
    (fun j => (blockChecksums checksum bs input).getD j 0) es hvalid
  rw [hout, ← hk, ← blockChecksums_eq_map]
  have hrange := range_length_map_getD (blockChecksums checksum bs input)
    0 id
  simpa using hrange

/-! ## The claims -/

/-- C1 (amended): for every result-store state and every cursor, one
`crc_saver` invocation writes and returns exactly the records with indices
`cursor, cursor + 1, …` for as long as each is present, stopping at the
first gap, and writes nothing when the cursor's index is absent — but it
does not remove the records: the store is left unchanged.  Consequently,
for any store holding exactly indices 0, 1, 2 — regardless of the order
the inserts {2, 0, 1} arrived in — a pop from cursor 0 yields exactly the
three values in index order, and a store holding only {1, 2} yields
nothing. -/
theorem claim_C1 :
    (∀ (m : List (Nat × Nat)) (c : Nat),
      (crc_saver m c).1 = m ∧
      (crc_saver m c).2.1 = c + (crc_saver m c).2.2.length ∧
      (∀ i, i < (crc_saver m c).2.2.length →
        mapFind m (c + i) = (crc_saver m c).2.2[i]?) ∧
      mapFind m (c + (crc_saver m c).2.2.length) = none) ∧
    (∀ (m : List (Nat × Nat)) (c : Nat), mapFind m c = none →
      (crc_saver m c).2.2 = []) ∧
    (∀ (m : List (Nat × Nat)) (a b c2 : Nat),
      mapFind m 0 = some a → mapFind m 1 = some b → mapFind m 2 = some c2 →
      mapFind m 3 = none → (crc_saver m 0).2.2 = [a, b, c2]) ∧
    (∀ (a b c2 : Nat),
      (crc_saver (insertAll [(2, c2), (0, a), (1, b)]).1 0).2.2 = [a, b, c2]) ∧
    (∀ (b c2 : Nat),
      (crc_saver (insertAll [(1, b), (2, c2)]).1 0).2.2 = []) := by
  have hmain := crc_saver_spec
  refine ⟨hmain, ?_, ?_, ?_, ?_⟩
  · intro m c h
    obtain ⟨_, _, hvals, _⟩ := hmain m c
    cases hlen : (crc_saver m c).2.2.length with
    | zero => exact List.length_eq_zero.mp hlen
    | succ n =>
      exfalso
      have h0 := hvals 0 (by omega)
      rw [Nat.add_zero, h] at h0
      rw [List.getElem?_eq_getElem (by omega)] at h0
      exact Option.noConfusion h0
  · intro m a b c2 h0 h1 h2 h3
    obtain ⟨_, _, hvals, hgap⟩ := hmain m 0
    have hlen : (crc_saver m 0).2.2.length = 3 := by
      have hg := hgap
      rw [Nat.zero_add] at hg
      by_contra hne
      rcases Nat.lt_or_ge (crc_saver m 0).2.2.length 3 with hlt | hge
      · have hsplit : (crc_saver m 0).2.2.length = 0 ∨
            (crc_saver m 0).2.2.length = 1 ∨
            (crc_saver m 0).2.2.length = 2 := by omega
        rcases hsplit with hc | hc | hc <;> rw [hc] at hg
        · rw [h0] at hg
          exact Option.noConfusion hg
        · rw [h1] at hg
          exact Option.noConfusion hg
        · rw [h2] at hg
          exact Option.noConfusion hg
      · have h4 : 3 < (crc_saver m 0).2.2.length := by omega
        have hv := hvals 3 h4
        rw [List.getElem?_eq_getElem h4] at hv
        rw [Nat.zero_add, h3] at hv
        exact Option.noConfusion hv
    have hv0 := hvals 0 (by omega)
    have hv1 := hvals 1 (by omega)
    have hv2 := hvals 2 (by omega)
    rw [Nat.zero_add, h0, List.getElem?_eq_getElem (by omega)] at hv0
    rw [Nat.zero_add, h1, List.getElem?_eq_getElem (by omega)] at hv1
    rw [Nat.zero_add, h2, List.getElem?_eq_getElem (by omega)] at hv2
    have hex : (crc_saver m 0).2.2 =
        [(crc_saver m 0).2.2[0], (crc_saver m 0).2.2[1],
         (crc_saver m 0).2.2[2]] := by
      apply List.ext_getElem
      · simp [hlen]
      · intro i hi hi'
        have hsplit : i = 0 ∨ i = 1 ∨ i = 2 := by omega
        rcases hsplit with h | h | h <;> subst h <;> simp
    rw [hex, ← Option.some_inj.mp hv0, ← Option.some_inj.mp hv1,
      ← Option.some_inj.mp hv2]
  · intro a b c2
    rfl
  · intro b c2
    rfl

/-- C1 counterexample: the claim states that the contiguous pop removes
the returned records from the store; on the code, for the store holding
exactly `(0, 5)`, the pop from cursor 0 writes the record yet the store
still contains index 0 afterwards — `crc_saver` never erases. -/
theorem claim_C1_counterexample :
    (crc_saver [(0, 5)] 0).2.2 = [5] ∧
    (crc_saver [(0, 5)] 0).1 = [(0, 5)] ∧
    mapFind (crc_saver [(0, 5)] 0).1 0 ≠ none := by
  decide

/-- C1 witness: the amended theorem applied to the concrete store
`[(0, 7)]` and to a store whose cursor index is absent. -/
theorem claim_C1_witness :
    (crc_saver [(0, 7)] 0).1 = [(0, 7)] ∧ (crc_saver [(5, 9)] 0).2.2 = [] :=
  ⟨(claim_C1.1 [(0, 7)] 0).1, claim_C1.2.1 [(5, 9)] 0 (by decide)⟩

/-- C3: the claim states the output holds `ceil(input_size / block_size)`
records and 0 for an empty input.  The code instead dispatches
`input_size / block_size + 1` blocks — the read loop tests `eof()` only
before reading, so when the block size divides the input size (including
the empty input) one extra zero-length block is dispatched and one extra
4-byte record is written: 1 record for an empty input, 3 records for a
2048-byte input at block size 1024 (the claim requires 0 and 2). -/
theorem claim_C3 :
    (∀ (bs : Nat) (input : List Nat), 0 < bs →
      (readBlocks bs input).length = input.length / bs + 1) ∧
    (readBlocks 1024 ([] : List Nat)).length = 1 ∧
    (readBlocks 1024 (List.replicate 2048 0)).length = 3 := by
  refine ⟨fun bs input h => readBlocks_length bs h input, ?_, ?_⟩
  · rw [readBlocks_small (by decide) (by decide)]
    rfl
  · rw [readBlocks_length 1024 (by decide) (List.replicate 2048 0),
      List.length_replicate]

/-- C3 witness: the block-count formula applied at block size 4 to a
four-byte input (an exact multiple: 2 dispatched blocks, not 1). -/
theorem claim_C3_witness :
    (readBlocks 4 [9, 9, 9, 9]).length =
      ([9, 9, 9, 9] : List Nat).length / 4 + 1 :=
  claim_C3.1 4 [9, 9, 9, 9] (by decide)

/-- C4: the checksum task processes exactly `readed_size` bytes — the
block actually read — never the full zero-padded buffer capacity; and a
2500-byte input at block size 1024 is dispatched as blocks of 1024, 1024
and 452 bytes. -/
theorem claim_C4 :
    (∀ (checksum : List Nat → Nat) (bs : Nat) (block : List Nat),
      taskChecksum checksum (taskBuffer bs block) block.length =
        checksum block) ∧
    (readBlocks 1024 (List.replicate 2500 37)).map List.length =
      [1024, 1024, 452] := by
  refine ⟨taskChecksum_block, ?_⟩
  rw [readBlocks_big (by decide)
      (by rw [List.length_replicate]; decide),
    readBlocks_big (by decide)
      (by rw [List.length_drop, List.length_replicate]; decide),
    readBlocks_small (by decide)
      (by rw [List.length_drop, List.length_drop, List.length_replicate]
          decide)]
  simp only [List.map_cons, List.map_nil, List.length_take, List.length_drop,
    List.length_replicate]
  decide

/-- C9: when the input path equals the output path, `main` prints the
conflict to `std::cerr` and returns `EXIT_FAILURE` before either stream is
opened: the action trace holds only the error message — no open of the
input stream and no truncating open of the output stream. -/
theorem claim_C9 (input_file_name output_file_name : String)
    (heq : input_file_name = output_file_name) :
    mainFlow true false false input_file_name output_file_name =
      ([MainAction.errSameFiles], some 1) ∧
    MainAction.openInputFile ∉
      (mainFlow true false false input_file_name output_file_name).1 ∧
    MainAction.openOutputTrunc ∉
      (mainFlow true false false input_file_name output_file_name).1 ∧
    (mainFlow true false false input_file_name output_file_name).2 ≠
      some 0 := by
  unfold mainFlow
  rw [if_neg (by simp), if_neg (by simp), if_pos heq]
  refine ⟨rfl, by simp, by simp, by simp⟩

/-- C9 witness: the theorem applied to equal concrete paths. -/
theorem claim_C9_witness :
    mainFlow true false false "data.bin" "data.bin" =
      ([MainAction.errSameFiles], some 1) :=
  (claim_C9 "data.bin" "data.bin" rfl).1

/-- C10: the claim states `block_size::set` never divides by zero and in
particular returns `false` for `number = 0` (which the option regex
`^\d+` admits, e.g. `--block 0`).  In fact the second overflow check
evaluates `UINT64_MAX / number` with `number = 0` — undefined behaviour,
modelled as `none` — exactly when the suffix is absent or one of K/M/G;
the call returns normally in every other case. -/
theorem claim_C10 (s : BlockSize) (number suffix : Nat) :
    BlockSize.set s number suffix = none ↔
      number = 0 ∧
      (suffix = 0 ∨ suffix = suffixK ∨ suffix = suffixM ∨
        suffix = suffixG) := by
  constructor
  · intro h
    by_cases hsuf : suffix = 0 ∨ suffix = suffixK ∨ suffix = suffixM ∨
        suffix = suffixG
    · by_cases hzero : number = 0
      · exact ⟨hzero, hsuf⟩
      · exfalso
        by_cases hfit : number * suffixMultiplier suffix ≤ UINT64_MAX
        · rw [BlockSize.set_fits s number hsuf hzero hfit] at h
          by_cases hsmall : number * suffixMultiplier suffix <
              BLOCK_SIZE_KILOBYTE
          · rw [if_pos hsmall] at h
            exact Option.noConfusion h
          · rw [if_neg hsmall] at h
            exact Option.noConfusion h
        · rw [BlockSize.set_overflow s number hsuf (by omega)] at h
          exact Option.noConfusion h
    · rw [BlockSize.set_invalid s number hsuf] at h
      exact Option.noConfusion h
  · rintro ⟨hzero, hsuf⟩
    subst hzero
    exact BlockSize.set_zero s hsuf

/-- C8 (amended): for every `number ≥ 1`, `set` returns `true` exactly
when the suffix is absent or one of K/M/G, the product
`number × multiplier` fits in a uint64 and is at least 1024 bytes; on
success the stored value (`get()`) is that product, and on every failure
the object is unchanged.  For `number = 0` with an absent or valid suffix
the call does not return `false` as the claim requires: it divides by
zero (see the counterexample). -/
theorem claim_C8 (s : BlockSize) (number suffix : Nat) (hnum : 1 ≤ number) :
    ((suffix = 0 ∨ suffix = suffixK ∨ suffix = suffixM ∨ suffix = suffixG) →
      number * suffixMultiplier suffix ≤ UINT64_MAX →
      BLOCK_SIZE_KILOBYTE ≤ number * suffixMultiplier suffix →
      BlockSize.set s number suffix = some (true,
        { number := number, suffix := suffixMultiplier suffix }) ∧
      BlockSize.get { number := number, suffix := suffixMultiplier suffix } =
        number * suffixMultiplier suffix) ∧
    (¬ (suffix = 0 ∨ suffix = suffixK ∨ suffix = suffixM ∨
        suffix = suffixG) →
      BlockSize.set s number suffix = some (false, s)) ∧
    ((suffix = 0 ∨ suffix = suffixK ∨ suffix = suffixM ∨ suffix = suffixG) →
      UINT64_MAX < number * suffixMultiplier suffix →
      BlockSize.set s number suffix = some (false, s)) ∧
    ((suffix = 0 ∨ suffix = suffixK ∨ suffix = suffixM ∨ suffix = suffixG) →
      number * suffixMultiplier suffix < BLOCK_SIZE_KILOBYTE →
      BlockSize.set s number suffix = some (false, s)) := by
  have hM : BLOCK_SIZE_KILOBYTE ≤ UINT64_MAX := by decide
  refine ⟨?_, ?_, ?_, ?_⟩
  · intro hsuf hfit hmin
    refine ⟨?_, ?_⟩
    · rw [BlockSize.set_fits s number hsuf (by omega) hfit,
        if_neg (by omega)]
    · show number * suffixMultiplier suffix % 2 ^ 64 =
        number * suffixMultiplier suffix
      apply Nat.mod_eq_of_lt
      have hMeq : UINT64_MAX = 2 ^ 64 - 1 := rfl
      omega
  · intro hsuf
    exact BlockSize.set_invalid s number hsuf
  · intro hsuf hbig
    exact BlockSize.set_overflow s number hsuf hbig
  · intro hsuf hsmall
    rw [BlockSize.set_fits s number hsuf (by omega) (by omega),
      if_pos hsmall]

/-- C8 counterexample: at `number = 0` with no suffix the claim requires
`set` to return `false` (the product 0 is below the 1024-byte minimum);
instead the second overflow check divides `UINT64_MAX` by zero and the
call has no defined result at all. -/
theorem claim_C8_counterexample :
    BlockSize.set { number := 0, suffix := 1 } 0 0 = none ∧
    ∀ s2 : BlockSize, BlockSize.set { number := 0, suffix := 1 } 0 0 ≠
      some (false, s2) := by
  constructor
  · decide
  · intro s2 h
    rw [(by decide : BlockSize.set { number := 0, suffix := 1 } 0 0 =
      none)] at h
    exact Option.noConfusion h

/-- C8 witness: the amended theorem applied at `number = 4` with suffix
`M` — accepted, with `get()` returning `4 * 2^20` — and at `number = 1`
with no suffix — rejected, since 1 byte is below the kilobyte minimum. -/
theorem claim_C8_witness :
    BlockSize.set { number := 0, suffix := 1 } 4 suffixM =
      some (true, { number := 4, suffix := suffixMultiplier suffixM }) ∧
    BlockSize.set { number := 0, suffix := 1 } 1 0 =
      some (false, { number := 0, suffix := 1 }) := by
  constructor
  · exact ((claim_C8 { number := 0, suffix := 1 } 4 suffixM (by decide)).1
      (by decide) (by decide) (by decide)).1
  · exact (claim_C8 { number := 0, suffix := 1 } 1 0 (by decide)).2.2.2
      (by decide) (by decide)

/-- C2: for every input and block size, after every dispatched checksum
task has completed — in any completion order, with flusher invocations and
backpressure checks interleaved arbitrarily — the final drain leaves the
output stream holding exactly checksum(block 0), checksum(block 1), … in
that order, with no gaps and no duplicates; consequently any two
completion schedules over the same input and block size produce identical
output. -/
theorem claim_C2 (checksum : List Nat → Nat) (bs : Nat) (input : List Nat)
    (es : List PoolEvent)
    (hvalid : ValidTrace (readBlocks bs input).length es) :
    (flushStep (runTrace
      (fun j => (blockChecksums checksum bs input).getD j 0) es
      initState)).out = (readBlocks bs input).map checksum ∧
    ∀ es2, ValidTrace (readBlocks bs input).length es2 →
      (flushStep (runTrace
        (fun j => (blockChecksums checksum bs input).getD j 0) es2
        initState)).out =
      (flushStep (runTrace
        (fun j => (blockChecksums checksum bs input).getD j 0) es
        initState)).out := by
  refine ⟨pipeline_output checksum bs input es hvalid, ?_⟩
  intro es2 h2
  rw [pipeline_output checksum bs input es2 h2,
    pipeline_output checksum bs input es hvalid]

/-- C2 witness: the theorem applied to a 5-byte input at block size 2
(three dispatched blocks) under a scrambled completion schedule
(task 2, task 0, task 1) with a flush and a backpressure check
interleaved. -/
theorem claim_C2_witness :
    (flushStep (runTrace
      (fun j => (blockChecksums List.sum 2 [1, 2, 3, 4, 5]).getD j 0)
      [PoolEvent.complete 2, PoolEvent.flush, PoolEvent.complete 0,
       PoolEvent.check, PoolEvent.complete 1]
      initState)).out = (readBlocks 2 [1, 2, 3, 4, 5]).map List.sum :=
  (claim_C2 List.sum 2 [1, 2, 3, 4, 5]
    [PoolEvent.complete 2, PoolEvent.flush, PoolEvent.complete 0,
     PoolEvent.check, PoolEvent.complete 1]
    (by rw [readBlocks_length 2 (by decide) [1, 2, 3, 4, 5]]
        decide)).1

/-- C5 (amended): whenever the Result Store's size — which counts every
record ever inserted, because flushing removes none — has reached the
`BLOCK_CRC_MAP_PROCESSING_SIZE` threshold at a block-dispatch point, the
producer's check synchronously invokes `crc_saver` before further work is
dispatched; the invocation advances the flush cursor past every
contiguously available record, but it leaves the store (and hence its
size) unchanged, so the forced flush does not drive the size back under
the threshold, and the count of computed-but-unflushed records is not
bounded by the threshold (see the counterexample run). -/
theorem claim_C5 (v : Nat → Nat) (s : RunState)
    (h : BLOCK_CRC_MAP_PROCESSING_SIZE ≤ s.m.length) :
    stepEvent v PoolEvent.check s = flushStep s ∧
    (stepEvent v PoolEvent.check s).m = s.m ∧
    mapFind (stepEvent v PoolEvent.check s).m
      (stepEvent v PoolEvent.check s).cursor = none := by
  have hstep : stepEvent v PoolEvent.check s = flushStep s := by
    show (if BLOCK_CRC_MAP_PROCESSING_SIZE ≤ s.m.length then flushStep s
      else s) = flushStep s
    rw [if_pos h]
  obtain ⟨hm, hc, _, hgap⟩ := crc_saver_spec s.m s.cursor
  refine ⟨hstep, ?_, ?_⟩
  · rw [hstep]
    exact hm
  · rw [hstep]
    show mapFind (crc_saver s.m s.cursor).1 (crc_saver s.m s.cursor).2.1 =
      none
    rw [hm, hc]
    exact hgap

set_option maxRecDepth 100000 in
/-- C5 counterexample: a run of 102 dispatches in which every task except
task 0 completes immediately after its dispatch.  Once the store size
reaches 100 the backpressure check does invoke `crc_saver`, but nothing
can be flushed past the gap at index 0: at the end of the run the store
holds 101 records, the cursor is still 0, the output is empty, and the
count of computed-but-unflushed records (101) exceeds the 100-record
high-water threshold — the forced flushes bounded nothing, and the store
size was never reduced. -/
theorem claim_C5_counterexample :
    (runTrace (fun j => j) (delayedZeroTrace 102) initState).m.length =
      101 ∧
    (runTrace (fun j => j) (delayedZeroTrace 102) initState).cursor = 0 ∧
    (runTrace (fun j => j) (delayedZeroTrace 102) initState).out = [] ∧
    BLOCK_CRC_MAP_PROCESSING_SIZE <
      unflushedCount (runTrace (fun j => j) (delayedZeroTrace 102)
        initState) := by
  decide

/-- C5 witness: the amended theorem applied to a store holding exactly the
100 records with indices 0…99 and cursor 0: the check flushes them all,
so the cursor lands on the first absent index. -/
theorem claim_C5_witness :
    mapFind (stepEvent (fun _ => 0) PoolEvent.check
        { m := (List.range 100).map (fun i => (i, 0)), cursor := 0,
          out := [] }).m
      (stepEvent (fun _ => 0) PoolEvent.check
        { m := (List.range 100).map (fun i => (i, 0)), cursor := 0,
          out := [] }).cursor = none :=
  (claim_C5 (fun _ => 0)
    { m := (List.range 100).map (fun i => (i, 0)), cursor := 0, out := [] }
    (by rw [List.length_map, List.length_range]
        decide)).2.2

/-- C6: when buffer allocation fails with `std::bad_alloc`, the Block
Source of the later `main` revision does not abort: it sleeps one bounded
10 ms backoff and retries the same read, without advancing the sequence
counter and without surfacing anything to the user — for every pattern of
allocation failures the dispatched blocks and their sequence indices are
exactly those of the failure-free run and the loop ends normally; only a
non-allocation exception is fatal (the pool is stopped and the loop exits
with `EXIT_FAILURE`). -/
theorem claim_C6 (bs : Nat) (allocs : List ReadOutcome) (input : List Nat)
    (hbs : 0 < bs) (hno : ReadOutcome.ioError ∉ allocs) :
    (runReadLoop bs allocs input 0).dispatched =
      indexFrom 0 (readBlocks bs input) ∧
    (runReadLoop bs allocs input 0).fatal = false ∧
    (∀ (rest : List ReadOutcome) (input2 : List Nat) (ctr : Nat),
      (runReadLoop bs (ReadOutcome.badAlloc :: rest) input2 ctr).sleeps =
        (runReadLoop bs rest input2 ctr).sleeps + 1 ∧
      (runReadLoop bs (ReadOutcome.badAlloc :: rest) input2 ctr).dispatched =
        (runReadLoop bs rest input2 ctr).dispatched) ∧
    (∀ (rest : List ReadOutcome) (input2 : List Nat) (ctr : Nat),
      runReadLoop bs (ReadOutcome.ioError :: rest) input2 ctr =
        { sleeps := 0, dispatched := [], fatal := true }) := by
  obtain ⟨h1, h2⟩ := runReadLoop_no_ioError bs hbs allocs hno input 0
  exact ⟨h1, h2, fun rest input2 ctr => ⟨rfl, rfl⟩,
    fun rest input2 ctr => rfl⟩

/-- C6 witness: the theorem applied to a 6-byte input at block size 4 with
three allocation failures interleaved among the successful reads. -/
theorem claim_C6_witness :
    (runReadLoop 4 [ReadOutcome.badAlloc, ReadOutcome.ok,
        ReadOutcome.badAlloc, ReadOutcome.badAlloc, ReadOutcome.ok,
        ReadOutcome.ok] [1, 2, 3, 4, 5, 6] 0).dispatched =
      indexFrom 0 (readBlocks 4 [1, 2, 3, 4, 5, 6]) :=
  (claim_C6 4 [ReadOutcome.badAlloc, ReadOutcome.ok, ReadOutcome.badAlloc,
    ReadOutcome.badAlloc, ReadOutcome.ok, ReadOutcome.ok] [1, 2, 3, 4, 5, 6]
    (by decide) (by decide)).1

/-- C7: under the Block Source precondition that the dispatched sequence
indices are pairwise distinct, the duplicate-key branch of the task's
result-store insertion is unreachable — no insertion ever reports an
error; and if a duplicate insertion is attempted, `std::map::insert`
leaves the existing entry unchanged, the task reports the offending index
(modelled by the report list), and the insertion is not retried. -/
theorem claim_C7 (pairs : List (Nat × Nat))
    (hnd : (pairs.map Prod.fst).Nodup) :
    (insertAll pairs).2 = [] ∧
    (∀ (m : List (Nat × Nat)) (k v w : Nat), mapFind m k = some w →
      mapInsert m k v = (m, false) ∧
      mapFind (mapInsert m k v).1 k = some w ∧
      insertAllFrom m [(k, v)] = (m, [k])) := by
  refine ⟨?_, ?_⟩
  · exact insertAllFrom_nodup pairs [] hnd (fun k _ => rfl)
  · intro m k v w hw
    have hdup := @mapFind_mapInsert_dup m k v w hw
    refine ⟨hdup, ?_, ?_⟩
    · rw [hdup]
      exact hw
    · unfold insertAllFrom
      rw [hdup]
      rfl

/-- C7 witness: the theorem applied to three tasks with distinct indices
(no error is reported) and to a duplicate insertion of index 3 into a
store already holding it (entry unchanged, failure reported). -/
theorem claim_C7_witness :
    (insertAll [(0, 10), (1, 11), (2, 12)]).2 = [] ∧
    mapInsert [(3, 5)] 3 9 = ([(3, 5)], false) :=
  ⟨(claim_C7 [(0, 10), (1, 11), (2, 12)] (by decide)).1,
   ((claim_C7 [] (by decide)).2 [(3, 5)] 3 9 5 (by decide)).1⟩

end Signature
